import Mathlib

/-!
Verification of `update_methods.py`.

The script applies two literal text substitutions to each file of a fixed
four-element path list and reports a per-path outcome.  We embed the text
transformation as a function on `List Char` (Python strings are sequences of
characters; `re.sub` with a fully escaped pattern is literal, leftmost,
non-overlapping replace-all), and the file/driver behaviour as pure functions
over an explicit model of the filesystem interactions.
-/

namespace UpdateMethods

/-- Boolean test that `P` occurs at the start of `s` (character-wise). -/
def matchesAt : List Char → List Char → Bool
  | [], _ => true
  | _ :: _, [] => false
  | p :: ps, c :: cs => p == c && matchesAt ps cs

/-- Fuel-indexed engine of leftmost non-overlapping replace-all: at each
position, if the pattern `P` matches, emit `R` and resume after the match,
otherwise copy one character.  The fuel (an upper bound on the number of
scanning steps, instantiated with the length of the input) makes the
recursion structural and hence kernel-executable. -/
def replaceAllAux (P R : List Char) : Nat → List Char → List Char
  | _, [] => []
  | 0, s => s
  | fuel + 1, c :: rest =>
    if matchesAt P (c :: rest) then
      R ++ replaceAllAux P R fuel (rest.drop (P.length - 1))
    else
      c :: replaceAllAux P R fuel rest

/-- Replace every non-overlapping occurrence of `P` in `s` by `R`, scanning
left to right: the semantics of `re.sub(re.escape-style literal, R, s)`. -/
def replaceAll (P R s : List Char) : List Char :=
  replaceAllAux P R s.length s

theorem replaceAllAux_nil (P R : List Char) (n : Nat) :
    replaceAllAux P R n [] = [] := by
  cases n <;> rfl

theorem replaceAllAux_fuel (P R : List Char) :
    ∀ (n m : Nat) (s : List Char), s.length ≤ n → s.length ≤ m →
      replaceAllAux P R n s = replaceAllAux P R m s := by
  intro n
  induction n with
  | zero =>
    intro m s hn _
    have : s = [] := List.eq_nil_of_length_eq_zero (Nat.le_zero.mp hn)
    subst this
    rw [replaceAllAux_nil, replaceAllAux_nil]
  | succ n ih =>
    intro m s hn hm
    cases s with
    | nil => rw [replaceAllAux_nil, replaceAllAux_nil]
    | cons c rest =>
      cases m with
      | zero => simp at hm
      | succ m =>
        simp only [List.length_cons, Nat.succ_le_succ_iff] at hn hm
        show (if matchesAt P (c :: rest) then
                R ++ replaceAllAux P R n (rest.drop (P.length - 1))
              else c :: replaceAllAux P R n rest) =
             (if matchesAt P (c :: rest) then
                R ++ replaceAllAux P R m (rest.drop (P.length - 1))
              else c :: replaceAllAux P R m rest)
        by_cases h : matchesAt P (c :: rest)
        · rw [if_pos h, if_pos h]
          have hd : (rest.drop (P.length - 1)).length ≤ rest.length := by
            rw [List.length_drop]; omega
          rw [ih m (rest.drop (P.length - 1)) (le_trans hd hn) (le_trans hd hm)]
        · rw [if_neg h, if_neg h, ih m rest hn hm]

theorem replaceAll_nil (P R : List Char) : replaceAll P R [] = [] := rfl

theorem replaceAll_cons_pos {P : List Char} (R : List Char) {c : Char}
    {rest : List Char} (h : matchesAt P (c :: rest) = true) :
    replaceAll P R (c :: rest) = R ++ replaceAll P R (rest.drop (P.length - 1)) := by
  have hd : (rest.drop (P.length - 1)).length ≤ rest.length := by
    rw [List.length_drop]; omega
  show replaceAllAux P R (rest.length + 1) (c :: rest) = _
  show (if matchesAt P (c :: rest) then
          R ++ replaceAllAux P R rest.length (rest.drop (P.length - 1))
        else c :: replaceAllAux P R rest.length rest) = _
  rw [if_pos h]
  unfold replaceAll
  rw [replaceAllAux_fuel P R rest.length (rest.drop (P.length - 1)).length
      (rest.drop (P.length - 1)) hd (le_refl _)]

theorem replaceAll_cons_neg {P : List Char} (R : List Char) {c : Char}
    {rest : List Char} (h : matchesAt P (c :: rest) = false) :
    replaceAll P R (c :: rest) = c :: replaceAll P R rest := by
  show replaceAllAux P R (rest.length + 1) (c :: rest) = _
  show (if matchesAt P (c :: rest) then
          R ++ replaceAllAux P R rest.length (rest.drop (P.length - 1))
        else c :: replaceAllAux P R rest.length rest) = _
  rw [h]
  simp only [Bool.false_eq_true, if_false]
  rfl

theorem consPrefixIff {p c : Char} {ps l : List Char} :
    (p :: ps) <+: (c :: l) ↔ p = c ∧ ps <+: l := by
  constructor
  · rintro ⟨t, ht⟩
    injection ht with h1 h2
    exact ⟨h1, t, h2⟩
  · rintro ⟨rfl, t, ht⟩
    exact ⟨t, by rw [List.cons_append, ht]⟩

theorem matchesAt_iff : ∀ (P s : List Char), matchesAt P s = true ↔ P <+: s
  | [], s => by
    simp only [matchesAt, true_iff]
    exact ⟨s, rfl⟩
  | p :: ps, [] => by
    simp only [matchesAt, Bool.false_eq_true, false_iff]
    rintro ⟨t, ht⟩
    exact List.cons_ne_nil _ _ ht
  | p :: ps, c :: cs => by
    simp only [matchesAt, Bool.and_eq_true, beq_iff_eq, matchesAt_iff ps cs,
      consPrefixIff]

/-- If `P` is a prefix of `a ++ x` then either `P` is a prefix of `a` or `a`
is a prefix of `P`. -/
theorem prefixCases : ∀ {a : List Char} {P x : List Char},
    P <+: a ++ x → P <+: a ∨ a <+: P
  | [], P, x, _ => Or.inr ⟨P, rfl⟩
  | _ :: _, [], _, _ => Or.inl ⟨_, rfl⟩
  | a₀ :: a', p :: ps, x, h => by
    rw [List.cons_append, consPrefixIff] at h
    rcases h with ⟨rfl, h⟩
    rcases prefixCases h with h' | h'
    · exact Or.inl (consPrefixIff.mpr ⟨rfl, h'⟩)
    · exact Or.inr (consPrefixIff.mpr ⟨rfl, h'⟩)

/-- `P` occurs (as a contiguous factor) somewhere in `s`. -/
def occursIn (P s : List Char) : Prop := ∃ a b, s = a ++ P ++ b

theorem occursIn_nil {P : List Char} : occursIn P [] ↔ P = [] := by
  constructor
  · rintro ⟨a, b, h⟩
    rcases List.append_eq_nil.mp (List.append_eq_nil.mp h.symm).1 with ⟨_, h2⟩
    exact h2
  · rintro rfl
    exact ⟨[], [], rfl⟩

theorem occursIn_cons {P : List Char} {c : Char} {s : List Char} :
    occursIn P (c :: s) ↔ P <+: (c :: s) ∨ occursIn P s := by
  constructor
  · rintro ⟨a, b, h⟩
    cases a with
    | nil =>
      exact Or.inl ⟨b, by simpa using h.symm⟩
    | cons a₀ a' =>
      rw [List.cons_append, List.cons_append] at h
      injection h with _ h2
      exact Or.inr ⟨a', b, h2⟩
  · rintro (⟨t, ht⟩ | ⟨a, b, h⟩)
    · exact ⟨[], t, by rw [← ht]; rfl⟩
    · exact ⟨c :: a, b, by rw [h]; rfl⟩

theorem occursIn_of_leading {P s : List Char} (h : P <+: s) : occursIn P s := by
  rcases h with ⟨t, ht⟩
  exact ⟨[], t, by rw [← ht]; rfl⟩

theorem occursIn_append_left {P u : List Char} (a : List Char)
    (h : occursIn P u) : occursIn P (a ++ u) := by
  rcases h with ⟨x, y, rfl⟩
  exact ⟨a ++ x, y, by simp [List.append_assoc]⟩

theorem occursIn_of_drop {P s : List Char} (k : Nat)
    (h : occursIn P (s.drop k)) : occursIn P s := by
  have := occursIn_append_left (s.take k) h
  rwa [List.take_append_drop] at this

/-- Executable occurrence test. -/
def occursB (P : List Char) : List Char → Bool
  | [] => matchesAt P []
  | c :: rest => matchesAt P (c :: rest) || occursB P rest

theorem occursIn_iff_occursB (P : List Char) :
    ∀ s : List Char, occursIn P s ↔ occursB P s = true
  | [] => by
    rw [occursIn_nil]
    show P = [] ↔ matchesAt P [] = true
    rw [matchesAt_iff]
    constructor
    · rintro rfl; exact ⟨[], rfl⟩
    · rintro ⟨t, ht⟩
      cases P with
      | nil => rfl
      | cons p ps => exact absurd ht (List.cons_ne_nil _ _)
  | c :: rest => by
    show occursIn P (c :: rest) ↔ (matchesAt P (c :: rest) || occursB P rest) = true
    rw [occursIn_cons, Bool.or_eq_true, matchesAt_iff, occursIn_iff_occursB P rest]

instance (P s : List Char) : Decidable (occursIn P s) :=
  decidable_of_iff _ (occursIn_iff_occursB P s).symm

/-- Both directions of the "neither is a prefix of the other" test. -/
def neitherAt (a b : List Char) : Bool := !(matchesAt a b) && !(matchesAt b a)

/-- For every suffix `A.drop k` of `A` (including `A` itself), neither `P`
is a prefix of it nor it a prefix of `P`.  Such an `A` can never host the
start of a match of `P`, wherever `A` sits in a larger string. -/
def allDropsBlocked (A P : List Char) : Bool :=
  (List.range A.length).all fun k => neitherAt P (A.drop k)

theorem allDropsBlocked_spec {A P : List Char} (h : allDropsBlocked A P = true) :
    ∀ k, k < A.length → ¬ P <+: A.drop k ∧ ¬ A.drop k <+: P := by
  intro k hk
  have h' := List.all_eq_true.mp h k (List.mem_range.mpr hk)
  simp only [neitherAt, Bool.and_eq_true, Bool.not_eq_true'] at h'
  constructor
  · intro hc
    rw [← matchesAt_iff] at hc
    rw [h'.1] at hc
    exact Bool.false_ne_true hc
  · intro hc
    rw [← matchesAt_iff] at hc
    rw [h'.2] at hc
    exact Bool.false_ne_true hc

theorem allDropsBlocked_tail {c : Char} {A' P : List Char}
    (h : allDropsBlocked (c :: A') P = true) : allDropsBlocked A' P = true := by
  simp only [allDropsBlocked, List.all_eq_true, List.mem_range, List.length_cons] at h ⊢
  intro k hk
  have := h (k + 1) (by omega)
  rwa [List.drop_succ_cons] at this

/-- An occurrence of `P` in `A ++ u` with `A` blocked lies entirely in `u`. -/
theorem occursIn_append_elim {P : List Char} :
    ∀ {A : List Char}, allDropsBlocked A P = true →
      ∀ {u : List Char}, occursIn P (A ++ u) → occursIn P u := by
  intro A
  induction A with
  | nil => intro _ u h; exact h
  | cons c A' ih =>
    intro hb u h
    have hb0 := allDropsBlocked_spec hb 0 (by simp)
    simp only [List.drop_zero] at hb0
    have hb' : allDropsBlocked A' P = true := allDropsBlocked_tail hb
    rw [List.cons_append] at h
    rcases occursIn_cons.mp h with hpre | hocc
    · rw [← List.cons_append] at hpre
      rcases prefixCases hpre with h' | h'
      · exact absurd h' hb0.1
      · exact absurd h' hb0.2
    · exact ih hb' hocc

/-- On a string without any occurrence of `P`, replace-all is the identity. -/
theorem replaceAll_of_not_occursIn {P R : List Char} :
    ∀ {s : List Char}, ¬ occursIn P s → replaceAll P R s = s := by
  intro s
  induction s with
  | nil => intro _; rfl
  | cons c rest ih =>
    intro h
    cases hm : matchesAt P (c :: rest) with
    | true =>
      exact absurd (occursIn_of_leading ((matchesAt_iff _ _).mp hm)) h
    | false =>
      rw [replaceAll_cons_neg R hm, ih fun hc => h (occursIn_cons.mpr (Or.inr hc))]

/-- Transfer lemma: a suffix `Q.drop j` of `Q` that is a prefix of the
replace-all output is already a prefix of the input, provided no suffix of
`Q` can interact with the replacement string `R`. -/
theorem dropPrefixTransfer {P R Q : List Char} (hQR : allDropsBlocked Q R = true) :
    ∀ (s : List Char) (j : Nat), j < Q.length →
      (Q.drop j) <+: replaceAll P R s → (Q.drop j) <+: s := by
  intro s
  induction s with
  | nil =>
    intro j hj h
    rw [replaceAll_nil] at h
    rcases h with ⟨t, ht⟩
    rcases List.append_eq_nil.mp ht with ⟨h1, _⟩
    have : Q.length - j = 0 := by rw [← List.length_drop, h1]; rfl
    omega
  | cons c rest ih =>
    intro j hj h
    have hQj := allDropsBlocked_spec hQR j hj
    cases hm : matchesAt P (c :: rest) with
    | true =>
      rw [replaceAll_cons_pos R hm] at h
      rcases prefixCases h with h' | h'
      · exact absurd h' hQj.2
      · exact absurd h' hQj.1
    | false =>
      rw [replaceAll_cons_neg R hm] at h
      cases hd : Q.drop j with
      | nil => exact ⟨c :: rest, rfl⟩
      | cons q qs =>
        rw [hd, consPrefixIff] at h
        rcases h with ⟨rfl, h⟩
        have hqs : Q.drop (j + 1) = qs := by
          have h1 : List.drop 1 (List.drop j Q) = qs := by rw [hd]; rfl
          rwa [List.drop_drop] at h1
        by_cases hj1 : j + 1 < Q.length
        · have hres := ih (j + 1) hj1 (by rw [hqs]; exact h)
          rw [hqs] at hres
          exact consPrefixIff.mpr ⟨rfl, hres⟩
        · have hnil : Q.drop (j + 1) = [] := List.drop_eq_nil_of_le (by omega)
          rw [hqs] at hnil
          subst hnil
          exact consPrefixIff.mpr ⟨rfl, ⟨rest, rfl⟩⟩

/-- Specialisation of the transfer lemma to whole-pattern prefixes across a
single copied character. -/
theorem prefixConsTransfer {P R Q : List Char} (hQ2 : 2 ≤ Q.length)
    (hQR : allDropsBlocked Q R = true) {c : Char} {rest : List Char}
    (h : Q <+: c :: replaceAll P R rest) : Q <+: c :: rest := by
  cases Q with
  | nil => exact ⟨_, rfl⟩
  | cons q qs =>
    rw [consPrefixIff] at h
    rcases h with ⟨rfl, h⟩
    have hlen : 1 < (q :: qs).length := by
      simpa using hQ2
    have hres := dropPrefixTransfer hQR rest 1 hlen h
    exact consPrefixIff.mpr ⟨rfl, hres⟩

/-- The output of replace-all contains no occurrence of the pattern, as long
as pattern and replacement cannot overlap (checked by `allDropsBlocked` in
both directions). -/
theorem not_occursIn_replaceAll {P R : List Char} (hP2 : 2 ≤ P.length)
    (hRP : allDropsBlocked R P = true) (hPR : allDropsBlocked P R = true) :
    ∀ (n : Nat) (s : List Char), s.length ≤ n →
      ¬ occursIn P (replaceAll P R s) := by
  intro n
  induction n with
  | zero =>
    intro s hs
    have : s = [] := List.eq_nil_of_length_eq_zero (Nat.le_zero.mp hs)
    subst this
    rw [replaceAll_nil, occursIn_nil]
    intro h
    rw [h] at hP2
    simp at hP2
  | succ n ih =>
    intro s hs
    cases s with
    | nil =>
      rw [replaceAll_nil, occursIn_nil]
      intro h
      rw [h] at hP2
      simp at hP2
    | cons c rest =>
      simp only [List.length_cons, Nat.succ_le_succ_iff] at hs
      cases hm : matchesAt P (c :: rest) with
      | true =>
        rw [replaceAll_cons_pos R hm]
        intro hocc
        have hocc' := occursIn_append_elim hRP hocc
        have hd : (rest.drop (P.length - 1)).length ≤ n := by
          rw [List.length_drop]; omega
        exact ih (rest.drop (P.length - 1)) hd hocc'
      | false =>
        rw [replaceAll_cons_neg R hm]
        intro hocc
        rcases occursIn_cons.mp hocc with hpre | hocc'
        · have := (matchesAt_iff _ _).mpr (prefixConsTransfer hP2 hPR hpre)
          rw [hm] at this
          exact Bool.false_ne_true this
        · exact ih rest hs hocc'

/-- Replace-all for pattern `P` cannot create an occurrence of an unrelated
pattern `Q` that was not already present, as long as `Q` cannot overlap the
replacement string `R`. -/
theorem not_occursIn_preserved {P R Q : List Char} (hQ2 : 2 ≤ Q.length)
    (hRQ : allDropsBlocked R Q = true) (hQR : allDropsBlocked Q R = true) :
    ∀ (n : Nat) (s : List Char), s.length ≤ n → ¬ occursIn Q s →
      ¬ occursIn Q (replaceAll P R s) := by
  intro n
  induction n with
  | zero =>
    intro s hs hq
    have : s = [] := List.eq_nil_of_length_eq_zero (Nat.le_zero.mp hs)
    subst this
    rwa [replaceAll_nil]
  | succ n ih =>
    intro s hs hq
    cases s with
    | nil => rwa [replaceAll_nil]
    | cons c rest =>
      simp only [List.length_cons, Nat.succ_le_succ_iff] at hs
      have hqrest : ¬ occursIn Q rest := fun h =>
        hq (occursIn_cons.mpr (Or.inr h))
      cases hm : matchesAt P (c :: rest) with
      | true =>
        rw [replaceAll_cons_pos R hm]
        intro hocc
        have hocc' := occursIn_append_elim hRQ hocc
        have hd : (rest.drop (P.length - 1)).length ≤ n := by
          rw [List.length_drop]; omega
        have hqd : ¬ occursIn Q (rest.drop (P.length - 1)) := fun h =>
          hqrest (occursIn_of_drop _ h)
        exact ih (rest.drop (P.length - 1)) hd hqd hocc'
      | false =>
        rw [replaceAll_cons_neg R hm]
        intro hocc
        rcases occursIn_cons.mp hocc with hpre | hocc'
        · exact hq (occursIn_of_leading (prefixConsTransfer hQ2 hQR hpre))
        · exact ih rest hs hqrest hocc'

/-- Replace-all walks through a blocked leading segment untouched. -/
theorem replaceAll_append_blocked {P R : List Char} :
    ∀ {A : List Char}, allDropsBlocked A P = true →
      ∀ (x : List Char), replaceAll P R (A ++ x) = A ++ replaceAll P R x := by
  intro A
  induction A with
  | nil => intro _ x; rfl
  | cons c A' ih =>
    intro hb x
    have hb0 := allDropsBlocked_spec hb 0 (by simp)
    rw [List.drop_zero] at hb0
    have hm : matchesAt P (c :: (A' ++ x)) = false := by
      cases hmm : matchesAt P (c :: (A' ++ x)) with
      | false => rfl
      | true =>
        have hp : P <+: (c :: A') ++ x := by
          rw [List.cons_append]
          exact (matchesAt_iff _ _).mp hmm
        rcases prefixCases hp with h' | h'
        · exact absurd h' hb0.1
        · exact absurd h' hb0.2
    rw [List.cons_append, replaceAll_cons_neg R hm,
      ih (allDropsBlocked_tail hb) x, List.cons_append]

/-- Replace-all fires on an exact leading occurrence of the pattern. -/
theorem replaceAll_fire {P R : List Char} (hne : P ≠ []) (x : List Char) :
    replaceAll P R (P ++ x) = R ++ replaceAll P R x := by
  cases P with
  | nil => exact absurd rfl hne
  | cons p ps =>
    have hm : matchesAt (p :: ps) ((p :: ps) ++ x) = true :=
      (matchesAt_iff _ _).mpr ⟨x, rfl⟩
    rw [List.cons_append] at hm
    rw [List.cons_append, replaceAll_cons_pos R hm]
    congr 1
    have hl : (p :: ps).length - 1 = ps.length := by simp
    rw [hl, List.drop_left]

/-! The two concrete rewrite rules of `update_file`: the regex patterns
`AevatarAIToolResult\.Success\(` and `AevatarAIToolResult\.Failure\(` have
every metacharacter escaped, so they are literal token sequences. -/

/-- Search pattern of RewriteRule 1. -/
def pat1 : List Char := "AevatarAIToolResult.Success(".toList

/-- Replacement text of RewriteRule 1. -/
def rep1 : List Char := "AevatarAIToolResult.CreateSuccess(".toList

/-- Search pattern of RewriteRule 2. -/
def pat2 : List Char := "AevatarAIToolResult.Failure(".toList

/-- Replacement text of RewriteRule 2. -/
def rep2 : List Char := "AevatarAIToolResult.CreateFailure(".toList

/-- RewriteRule 1: `re.sub(r'AevatarAIToolResult\.Success\(', ...)`. -/
def applyRule1 (s : List Char) : List Char := replaceAll pat1 rep1 s

/-- RewriteRule 2: `re.sub(r'AevatarAIToolResult\.Failure\(', ...)`. -/
def applyRule2 (s : List Char) : List Char := replaceAll pat2 rep2 s

/-- The complete content transformation of `update_file`: rule 1, then
rule 2 on the result of rule 1. -/
def transformContent (s : List Char) : List Char := applyRule2 (applyRule1 s)

theorem pat1_len : 2 ≤ pat1.length := by decide

theorem pat2_len : 2 ≤ pat2.length := by decide

theorem pat1_ne_nil : pat1 ≠ [] := by decide

theorem pat2_ne_nil : pat2 ≠ [] := by decide

theorem blk_rep1_pat1 : allDropsBlocked rep1 pat1 = true := by decide

theorem blk_pat1_rep1 : allDropsBlocked pat1 rep1 = true := by decide

theorem blk_rep2_pat2 : allDropsBlocked rep2 pat2 = true := by decide

theorem blk_pat2_rep2 : allDropsBlocked pat2 rep2 = true := by decide

theorem blk_rep2_pat1 : allDropsBlocked rep2 pat1 = true := by decide

theorem blk_pat1_rep2 : allDropsBlocked pat1 rep2 = true := by decide

theorem blk_rep1_pat2 : allDropsBlocked rep1 pat2 = true := by decide

theorem blk_pat2_rep1 : allDropsBlocked pat2 rep1 = true := by decide

theorem blk_pat1_pat2 : allDropsBlocked pat1 pat2 = true := by decide

theorem blk_pat2_pat1 : allDropsBlocked pat2 pat1 = true := by decide

/-- After rule 1, no occurrence of pattern 1 remains. -/
theorem applyRule1_no_pat1 (s : List Char) : ¬ occursIn pat1 (applyRule1 s) :=
  not_occursIn_replaceAll pat1_len blk_rep1_pat1 blk_pat1_rep1
    s.length s (le_refl _)

/-- After rule 2, no occurrence of pattern 2 remains. -/
theorem applyRule2_no_pat2 (s : List Char) : ¬ occursIn pat2 (applyRule2 s) :=
  not_occursIn_replaceAll pat2_len blk_rep2_pat2 blk_pat2_rep2
    s.length s (le_refl _)

/-- Rule 2 does not create occurrences of pattern 1. -/
theorem applyRule2_no_new_pat1 {s : List Char} (h : ¬ occursIn pat1 s) :
    ¬ occursIn pat1 (applyRule2 s) :=
  not_occursIn_preserved pat1_len blk_rep2_pat1 blk_pat1_rep2
    s.length s (le_refl _) h

/-- The transformed content contains no occurrence of either pattern. -/
theorem transformContent_no_pats (s : List Char) :
    ¬ occursIn pat1 (transformContent s) ∧ ¬ occursIn pat2 (transformContent s) :=
  ⟨applyRule2_no_new_pat1 (applyRule1_no_pat1 s), applyRule2_no_pat2 (applyRule1 s)⟩

/-- Content without occurrences of either pattern is left unchanged. -/
theorem transformContent_fixed {s : List Char} (h1 : ¬ occursIn pat1 s)
    (h2 : ¬ occursIn pat2 s) : transformContent s = s := by
  unfold transformContent applyRule2 applyRule1
  rw [replaceAll_of_not_occursIn h1, replaceAll_of_not_occursIn h2]

theorem transformContent_idem (s : List Char) :
    transformContent (transformContent s) = transformContent s :=
  transformContent_fixed (transformContent_no_pats s).1 (transformContent_no_pats s).2

theorem matchesAt_false_of_not {P s : List Char} (h : ¬ P <+: s) :
    matchesAt P s = false := by
  cases hm : matchesAt P s with
  | false => rfl
  | true => exact absurd ((matchesAt_iff _ _).mp hm) h

theorem commute_aux : ∀ (n : Nat) (s : List Char), s.length ≤ n →
    applyRule2 (applyRule1 s) = applyRule1 (applyRule2 s) := by
  intro n
  induction n with
  | zero =>
    intro s hs
    have : s = [] := List.eq_nil_of_length_eq_zero (Nat.le_zero.mp hs)
    subst this
    rfl
  | succ n ih =>
    intro s hs
    by_cases hm1 : matchesAt pat1 s = true
    · rcases (matchesAt_iff _ _).mp hm1 with ⟨t, rfl⟩
      have hlt : t.length ≤ n := by
        rw [List.length_append] at hs
        have := pat1_len
        omega
      calc applyRule2 (applyRule1 (pat1 ++ t))
          = applyRule2 (rep1 ++ applyRule1 t) := by
            unfold applyRule1
            rw [replaceAll_fire pat1_ne_nil]
        _ = rep1 ++ applyRule2 (applyRule1 t) := by
            unfold applyRule2
            rw [replaceAll_append_blocked blk_rep1_pat2]
        _ = rep1 ++ applyRule1 (applyRule2 t) := by rw [ih t hlt]
        _ = applyRule1 (pat1 ++ applyRule2 t) := by
            unfold applyRule1
            rw [replaceAll_fire pat1_ne_nil]
        _ = applyRule1 (applyRule2 (pat1 ++ t)) := by
            unfold applyRule2
            rw [replaceAll_append_blocked blk_pat1_pat2]
    · by_cases hm2 : matchesAt pat2 s = true
      · rcases (matchesAt_iff _ _).mp hm2 with ⟨t, rfl⟩
        have hlt : t.length ≤ n := by
          rw [List.length_append] at hs
          have := pat2_len
          omega
        calc applyRule2 (applyRule1 (pat2 ++ t))
            = applyRule2 (pat2 ++ applyRule1 t) := by
              unfold applyRule1
              rw [replaceAll_append_blocked blk_pat2_pat1]
          _ = rep2 ++ applyRule2 (applyRule1 t) := by
              unfold applyRule2
              rw [replaceAll_fire pat2_ne_nil]
          _ = rep2 ++ applyRule1 (applyRule2 t) := by rw [ih t hlt]
          _ = applyRule1 (rep2 ++ applyRule2 t) := by
              unfold applyRule1
              rw [replaceAll_append_blocked blk_rep2_pat1]
          _ = applyRule1 (applyRule2 (pat2 ++ t)) := by
              unfold applyRule2
              rw [replaceAll_fire pat2_ne_nil]
      · cases s with
        | nil => rfl
        | cons c rest =>
          simp only [List.length_cons, Nat.succ_le_succ_iff] at hs
          rw [Bool.not_eq_true] at hm1 hm2
          have hf : applyRule1 (c :: rest) = c :: applyRule1 rest :=
            replaceAll_cons_neg rep1 hm1
          have hg : applyRule2 (c :: rest) = c :: applyRule2 rest :=
            replaceAll_cons_neg rep2 hm2
          have hm2' : matchesAt pat2 (c :: applyRule1 rest) = false := by
            apply matchesAt_false_of_not
            intro hp
            have := prefixConsTransfer pat2_len blk_pat2_rep1 hp
            exact Bool.false_ne_true (hm2 ▸ (matchesAt_iff pat2 (c :: rest)).mpr this)
          have hm1' : matchesAt pat1 (c :: applyRule2 rest) = false := by
            apply matchesAt_false_of_not
            intro hp
            have := prefixConsTransfer pat1_len blk_pat1_rep2 hp
            exact Bool.false_ne_true (hm1 ▸ (matchesAt_iff pat1 (c :: rest)).mpr this)
          rw [hf, hg]
          unfold applyRule1 at hm2'
          unfold applyRule2 at hm1'
          unfold applyRule1 applyRule2
          rw [replaceAll_cons_neg rep2 hm2', replaceAll_cons_neg rep1 hm1']
          have hih := ih rest hs
          unfold applyRule1 applyRule2 at hih
          rw [hih]

/-- The two rewrite rules commute. -/
theorem rules_commute (s : List Char) :
    applyRule2 (applyRule1 s) = applyRule1 (applyRule2 s) :=
  commute_aux s.length s (le_refl _)

/-! ### Model of `update_file` and of the driver loop

`update_file` interacts with the filesystem through an `open`/`read` step and
an `open`/`write` step, each of which may raise; the `try`/`except` block
catches every exception and turns it into an error line plus return value
`False`.  We model the two fallible steps by an environment recording how
each would turn out, and `update_file` as a total function on it: totality is
the embedding of "no exception propagates to the caller". -/

/-- How the two filesystem interactions of one `update_file` call would turn
out: `Except.error e` means the corresponding call raises with message `e`. -/
structure FileOps where
  readResult : Except (List Char) (List Char)
  writeResult : Except (List Char) Unit

/-- Observable outcome of one `update_file` call. -/
structure UpdateResult where
  retVal : Bool
  output : List (List Char)
  writeAttempted : Bool
  written : Option (List Char)

/-- `f"Updated: {file_path}"`. -/
def updatedMsg (path : List Char) : List Char := "Updated: ".toList ++ path

/-- `f"Error updating {file_path}: {e}"`. -/
def errorMsg (path msg : List Char) : List Char :=
  "Error updating ".toList ++ path ++ ": ".toList ++ msg

/-- `f"File not found: {file_path}"`. -/
def notFoundMsg (path : List Char) : List Char :=
  "File not found: ".toList ++ path

/-- `"Method name updates completed!"`. -/
def completedMsg : List Char := "Method name updates completed!".toList

/-- The `update_file` function: read, transform (rule 1 then rule 2), write,
report.  The first failing step short-circuits to the `except` arm. -/
def update_file (ops : FileOps) (path : List Char) : UpdateResult :=
  match ops.readResult with
  | Except.error e => ⟨false, [errorMsg path e], false, none⟩
  | Except.ok content =>
    match ops.writeResult with
    | Except.error e => ⟨false, [errorMsg path e], true, none⟩
    | Except.ok _ => ⟨true, [updatedMsg path], true, some (transformContent content)⟩

/-- Filesystem state at one path: whether `os.path.exists` holds, and how the
read/write steps would turn out if attempted. -/
structure PathEnv where
  present : Bool
  ops : FileOps

/-- Observable outcome of one driver-loop iteration. -/
structure PathResult where
  output : List (List Char)
  writeAttempted : Bool
  written : Option (List Char)

/-- One iteration of the driver loop: check existence, then either call
`update_file` (discarding its boolean result) or print the not-found line. -/
def processPath (env : PathEnv) (path : List Char) : PathResult :=
  if env.present then
    let u := update_file env.ops path
    ⟨u.output, u.writeAttempted, u.written⟩
  else
    ⟨[notFoundMsg path], false, none⟩

/-- The hard-coded four-element path list. -/
def files_to_update : List (List Char) :=
  ["/Users/zhaoyiqi/Code/aevatar-agent-framework/src/Aevatar.Agents.AI.MEAI/Examples/SampleAgentWithTools.cs".toList,
   "/Users/zhaoyiqi/Code/aevatar-agent-framework/src/Aevatar.Agents.AI.MEAI/MEAIGAgentBase.cs".toList,
   "/Users/zhaoyiqi/Code/aevatar-agent-framework/test/Aevatar.Agents.AI.Tests/InterfaceDefinitionTests.cs".toList,
   "/Users/zhaoyiqi/Code/aevatar-agent-framework/test/Aevatar.Agents.AI.Tests/MEAIGAgentBaseTests.cs".toList]

/-- The driver loop, one iteration per path, in list order. -/
def runLoop (fs : List Char → PathEnv) : List (List Char) → List PathResult
  | [] => []
  | p :: rest => processPath (fs p) p :: runLoop fs rest

/-- Whole-process observables. -/
structure ScriptRun where
  results : List PathResult
  output : List (List Char)
  exitCode : Nat

/-- The whole script: loop over the path list, then the completion line.
Every per-path exception is consumed inside `update_file`, so the process
always reaches the final print and terminates normally (exit code 0). -/
def runScript (fs : List Char → PathEnv) : ScriptRun :=
  let rs := runLoop fs files_to_update
  ⟨rs, (rs.map PathResult.output).flatten ++ [completedMsg], 0⟩

/-! ### Shared concrete sample data for witnesses and counterexamples -/

/-- A sample path. -/
def samplePath : List Char := "/tmp/Example.cs".toList

/-- Sample content containing an occurrence of pattern 1. -/
def sampleContent : List Char :=
  "return AevatarAIToolResult.Success(data);".toList

/-- Content whose call tokens carry a different receiver identifier. -/
def fooContent : List Char := "FooBar.Success(x)".toList

/-- Content mixing two non-matching receiver identifiers. -/
def mixedContent : List Char :=
  "FooBar.Success(x); MySuccessHandler.Success(y)".toList

/-- A sample failure reason. -/
def failMsg : List Char := "Permission denied".toList

/-! ### Claims -/

/-- C1 (counterexample): as stated, the claim conditions only on the read
succeeding; with a successful read but a failing write, `update_file`
returns `false` and writes nothing, while the claim promises `true` and a
write-back. -/
theorem c1_counterexample :
    (update_file ⟨Except.ok sampleContent, Except.error failMsg⟩ samplePath).retVal
        = false ∧
      (update_file ⟨Except.ok sampleContent, Except.error failMsg⟩ samplePath).written
        = none :=
  ⟨rfl, rfl⟩

/-- C1 (amended): for every path whose file is read successfully AND whose
write-back succeeds, `update_file` applies RewriteRule 1, then RewriteRule 2
to the result of rule 1, writes the transformed text back, emits one success
notice naming the path, and returns `true`. -/
theorem c1_update_success (ops : FileOps) (path content : List Char)
    (hr : ops.readResult = Except.ok content)
    (hw : ops.writeResult = Except.ok ()) :
    update_file ops path =
      ⟨true, [updatedMsg path], true, some (applyRule2 (applyRule1 content))⟩ := by
  unfold update_file
  rw [hr, hw]
  rfl

/-- C1 (witness): the amended theorem applied to a concrete successful
read/write environment. -/
theorem c1_witness :
    update_file ⟨Except.ok sampleContent, Except.ok ()⟩ samplePath =
      ⟨true, [updatedMsg samplePath], true,
        some (applyRule2 (applyRule1 sampleContent))⟩ :=
  c1_update_success ⟨Except.ok sampleContent, Except.ok ()⟩ samplePath
    sampleContent rfl rfl

/-- C2 (counterexample): the claim quantifies over every literal identifier
`X`; for `X = FooBar`, the occurrence of `FooBar.Success(` in the file is
written back unchanged and does not become `FooBar.CreateSuccess(`. -/
theorem c2_counterexample :
    (update_file ⟨Except.ok fooContent, Except.ok ()⟩ samplePath).written
        = some fooContent ∧
      occursB ("FooBar.CreateSuccess(".toList) fooContent = false :=
  ⟨rfl, rfl⟩

/-- C2 (amended): for the one fixed identifier `AevatarAIToolResult`, every
occurrence of `.Success(` / `.Failure(` after it is rewritten — none remains
in the written content — and content without any occurrence of the two
patterns is written back byte-for-byte unchanged. -/
theorem c2_fixed_identifier (ops : FileOps) (path content : List Char)
    (hr : ops.readResult = Except.ok content)
    (hw : ops.writeResult = Except.ok ()) :
    (update_file ops path).written = some (transformContent content) ∧
      ¬ occursIn pat1 (transformContent content) ∧
      ¬ occursIn pat2 (transformContent content) ∧
      (¬ occursIn pat1 content → ¬ occursIn pat2 content →
        transformContent content = content) := by
  refine ⟨?_, (transformContent_no_pats content).1,
    (transformContent_no_pats content).2, fun h1 h2 => transformContent_fixed h1 h2⟩
  unfold update_file
  rw [hr, hw]

/-- C2 (witness): the amended theorem applied to a concrete successful
read/write environment. -/
theorem c2_witness :
    (update_file ⟨Except.ok sampleContent, Except.ok ()⟩ samplePath).written
        = some (transformContent sampleContent) ∧
      ¬ occursIn pat1 (transformContent sampleContent) ∧
      ¬ occursIn pat2 (transformContent sampleContent) ∧
      (¬ occursIn pat1 sampleContent → ¬ occursIn pat2 sampleContent →
        transformContent sampleContent = sampleContent) :=
  c2_fixed_identifier ⟨Except.ok sampleContent, Except.ok ()⟩ samplePath
    sampleContent rfl rfl

/-- C3: the content transformation is idempotent — a second application of
the two rewrite rules to an already transformed text changes nothing. -/
theorem c3_idempotent (s : List Char) :
    transformContent (transformContent s) = transformContent s :=
  transformContent_idem s

/-- C4: pattern specificity — text containing no occurrence of the two full
patterns (in particular `.Success(` / `.Failure(` call tokens whose receiver
is any identifier other than the literal `AevatarAIToolResult`) is left
completely unchanged by the transformation. -/
theorem c4_specificity (s : List Char) (h1 : ¬ occursIn pat1 s)
    (h2 : ¬ occursIn pat2 s) : transformContent s = s :=
  transformContent_fixed h1 h2

/-- C4 (witness): `FooBar.Success(x)` and `MySuccessHandler.Success(y)` have
different receiver identifiers, so the whole text is unchanged. -/
theorem c4_witness : transformContent mixedContent = mixedContent :=
  c4_specificity mixedContent (by decide) (by decide)

/-- C5: the two rewrite rules commute — applying the Success rule then the
Failure rule equals applying the Failure rule then the Success rule. -/
theorem c5_commute (s : List Char) :
    applyRule2 (applyRule1 s) = applyRule1 (applyRule2 s) :=
  rules_commute s

/-- C6: if the read step or the write step of `update_file` fails, the
failure is caught inside `update_file` (which, being a total function in
this model, propagates no exception), exactly one error notice naming the
path and a failure reason is emitted, and `false` is returned. -/
theorem c6_error_caught (ops : FileOps) (path : List Char)
    (h : (∃ e, ops.readResult = Except.error e) ∨
         (∃ e, ops.writeResult = Except.error e)) :
    (update_file ops path).retVal = false ∧
      ∃ e, (update_file ops path).output = [errorMsg path e] := by
  rcases hrw : ops.readResult with e | content
  · unfold update_file
    rw [hrw]
    exact ⟨rfl, e, rfl⟩
  · rcases h with ⟨e, he⟩ | ⟨e, he⟩
    · rw [hrw] at he
      exact absurd he (by simp)
    · unfold update_file
      rw [hrw, he]
      exact ⟨rfl, e, rfl⟩

/-- C6 (witness): the theorem applied to a concrete failing read. -/
theorem c6_witness :
    (update_file ⟨Except.error failMsg, Except.ok ()⟩ samplePath).retVal = false ∧
      ∃ e, (update_file ⟨Except.error failMsg, Except.ok ()⟩ samplePath).output
        = [errorMsg samplePath e] :=
  c6_error_caught ⟨Except.error failMsg, Except.ok ()⟩ samplePath
    (Or.inl ⟨failMsg, rfl⟩)

/-- C7: for a path that does not exist, one loop iteration emits exactly the
one not-found notice naming the path, attempts no write, and writes no
content (in particular `update_file` is not reached: the iteration's outcome
is fully determined without consulting the read/write environment). -/
theorem c7_not_found (env : PathEnv) (path : List Char)
    (h : env.present = false) :
    processPath env path = ⟨[notFoundMsg path], false, none⟩ := by
  simp [processPath, h]

/-- C7 (witness): the theorem applied to a concrete absent path. -/
theorem c7_witness :
    processPath ⟨false, ⟨Except.ok [], Except.ok ()⟩⟩ samplePath
      = ⟨[notFoundMsg samplePath], false, none⟩ :=
  c7_not_found ⟨false, ⟨Except.ok [], Except.ok ()⟩⟩ samplePath rfl

/-- C8: driver invariant — for every filesystem behaviour, each of the four
paths is processed exactly once, in list order, each producing exactly one
per-path result (so a failure at one path never prevents the later ones),
and the output ends with the single fixed completion notice. -/
theorem c8_driver_invariant (fs : List Char → PathEnv) :
    (runScript fs).results = files_to_update.map (fun p => processPath (fs p) p) ∧
      (runScript fs).results.length = 4 ∧
      (runScript fs).output =
        ((runScript fs).results.map PathResult.output).flatten ++ [completedMsg] :=
  ⟨rfl, rfl, rfl⟩

/-- C9: for every filesystem behaviour — including every file missing and
every update failing — the process terminates normally with exit code 0 and
its last output line is the fixed completion notice. -/
theorem c9_exit_success (fs : List Char → PathEnv) :
    (runScript fs).exitCode = 0 ∧
      (runScript fs).output.getLast? = some completedMsg := by
  refine ⟨rfl, ?_⟩
  show (((runLoop fs files_to_update).map PathResult.output).flatten
    ++ [completedMsg]).getLast? = some completedMsg
  rw [List.getLast?_concat]

/-- C10: on a read failure, `update_file` never attempts write access (the
file content is left untouched), emits the single error notice, and returns
`false`. -/
theorem c10_read_failure_no_write (ops : FileOps) (path e : List Char)
    (h : ops.readResult = Except.error e) :
    update_file ops path = ⟨false, [errorMsg path e], false, none⟩ := by
  unfold update_file
  rw [h]

/-- C10 (witness): the theorem applied to a concrete failing read. -/
theorem c10_witness :
    update_file ⟨Except.error failMsg, Except.ok ()⟩ samplePath
      = ⟨false, [errorMsg samplePath failMsg], false, none⟩ :=
  c10_read_failure_no_write ⟨Except.error failMsg, Except.ok ()⟩ samplePath
    failMsg rfl

end UpdateMethods
